import Mathlib

/-!
Verification of `src/module/resnet_tiny_imagenet.py` (PCS repository).

Shallow embedding conventions:
* Parameter names (state-dict keys) are modelled as `List Char`, so that the
  source's string slicing (`k[3:]`, `k[7:]`) and `startswith` become `List.drop`
  and `List.isPrefixOf`.
* A checkpoint (`torch.load` result) is an association list from keys to
  parameter values of an abstract type `V`; `dict.update` puts the new entries
  in front, matching Python dict lookup precedence.
* A model instance (`ResNet`) is a record `Net` holding the registered
  state-dict keys, the current parameter values, the plain tensor attributes
  `alphas` and `gumbel` (which are not registered parameters, hence not part of
  the state-dict keys), and the scalar configuration attributes.
* `gumbel_softmax_v1` and `gumbel_like` live in `utils`, outside the sources;
  following the spec, `gumbel_softmax` is softmax of `(alphas + gumbel) / tau`
  along the candidate axis, and the Gumbel draw is an explicit argument of the
  constructor.
* Real tensors entries are `ℝ`; overflow/rounding of floats is out of scope.
-/

namespace PCS

/-- A state-dict key: a parameter name, as a list of characters. -/
abbrev Key : Type := List Char

/-- A loaded checkpoint: association list from keys to values, first match wins. -/
abbrev Dict (V : Type) : Type := List (Key × V)

/-- Keys of a checkpoint dictionary. -/
def dictKeys {V : Type} (d : Dict V) : List Key :=
  d.map Prod.fst

/-- State of one `ResNet` instance: registered state-dict keys and their current
values, the plain tensor attributes `alphas` and `gumbel`
(from `_initialize_alphas`, not registered, so not in `keys`), and the scalar
attributes set in `__init__`. -/
structure Net (V : Type) where
  keys : List Key
  params : Key → V
  alphas : List (List ℝ)
  gumbel : List (List ℝ)
  tau : ℝ
  temp : ℝ
  weightRoot : String
  modelName : String

/-- The fixed `self.block_names` list from `__init__`. -/
def blockNames : List String :=
  ["layer1", "layer2", "layer3", "layer4", "fc"]

/-- Checkpoint path format `"{root}/{name}_cross_entropy_{id}.model"`. -/
def fmtPath (root name : String) (id : ℕ) : String :=
  root ++ "/" ++ name ++ "_cross_entropy_" ++ toString id ++ ".model"

/-- Softmax of a list of reals (candidate axis of one decision point). -/
noncomputable def softmaxRow (r : List ℝ) : List ℝ :=
  r.map (fun x => Real.exp x / (r.map Real.exp).sum)

/-- Modelled from the spec: `gumbel_softmax_v1` from `utils` is not under the
sources; per the spec it computes, for each decision point independently,
`softmax((logit + gumbel_noise) / tau)` along the candidate axis. -/
noncomputable def gumbelSoftmax (alphas gumbel : List (List ℝ)) (tau : ℝ) :
    List (List ℝ) :=
  List.zipWith (fun a g => softmaxRow (List.zipWith (fun x y => (x + y) / tau) a g))
    alphas gumbel

/-- `arch_weights(cat=False)`: the `k` per-decision-point weight rows. -/
noncomputable def archWeightsUncat {V : Type} (m : Net V) : List (List ℝ) :=
  gumbelSoftmax m.alphas m.gumbel m.tau

/-- `arch_weights(cat=True)`: `torch.cat` of the rows into one flat sequence. -/
noncomputable def archWeightsCat {V : Type} (m : Net V) : List ℝ :=
  (archWeightsUncat m).flatten

/-- `arch_weights` as a method call: returns the uncombined weights together
with the post-call instance state (the method body mutates nothing). -/
noncomputable def archWeightsCall {V : Type} (m : Net V) : List (List ℝ) × Net V :=
  (archWeightsUncat m, m)

/-- Index of the first maximal element (`torch.argmax` along the last axis). -/
noncomputable def argmaxIdx : List ℝ → ℕ
  | [] => 0
  | x :: xs => if ∀ y ∈ xs, y ≤ x then 0 else argmaxIdx xs + 1

/-- `_initialize_alphas`: `alphas = 1e-3 * randn(5, 100)` and
`gumbel = gumbel_like(alphas)`.  The two random draws are explicit arguments,
with the `k = 5`, `num_ops = 100` shape from the source carried by the types.
`gumbel_like` is modelled from the spec: one fixed Gumbel-distributed draw of
the same shape, taken at construction. -/
def initializeAlphas {V : Type} (m : Net V) (randA randG : Fin 5 → Fin 100 → ℝ) :
    Net V :=
  { m with
    alphas := List.ofFn fun i => List.ofFn fun j => (1e-3 : ℝ) * randA i j
    gumbel := List.ofFn fun i => List.ofFn fun j => randG i j }

/-- Non-strict `load_state_dict` (`strict=False`): every model key present in
the dictionary is overwritten with the dictionary value; model keys missing
from the dictionary keep their prior value; dictionary keys that are not model
keys are ignored. -/
def loadNonStrict {V : Type} (m : Net V) (d : Dict V) : Net V :=
  { m with
    params := fun k =>
      if k ∈ m.keys then
        match d.lookup k with
        | some v => v
        | none => m.params k
      else m.params k }

/-- Key-set check of strict `load_state_dict`: no missing and no unexpected keys. -/
def strictMatchB {V : Type} (keys : List Key) (d : Dict V) : Bool :=
  keys.all (fun k => (d.lookup k).isSome) && d.all (fun kv => keys.contains kv.1)

/-- Strict `load_state_dict` (`strict=True`): fatal error unless the dictionary
keys exactly match the model keys, otherwise the same parameter update. -/
def loadStrict {V : Type} (m : Net V) (d : Dict V) : Except Unit (Net V) :=
  if strictMatchB m.keys d then .ok (loadNonStrict m d) else .error ()

/-- Number of characters stripped from a matching checkpoint key: the literal
`k[3:]` for the `fc` group and `k[7:]` for the `layer*` groups. -/
def stripCount (name : String) : ℕ :=
  if name = "fc" then 3 else 7

/-- One per-group load: build `modified_dict` from the checkpoint entries whose
key starts with the group name, with `stripCount` characters stripped; update
the checkpoint dictionary with it; then non-strictly load the result into the
submodule `getattr(self, name)`, whose own state-dict keys are the model keys
with prefix `name ++ "."` stripped. -/
def loadGroup {V : Type} (m : Net V) (name : String) (d : Dict V) : Net V :=
  let pre : Key := name.toList
  let modified : Dict V :=
    (d.filter (fun kv => pre.isPrefixOf kv.1)).map
      (fun kv => (kv.1.drop (stripCount name), kv.2))
  let d2 : Dict V := modified ++ d
  { m with
    params := fun k =>
      if (pre ++ ['.']).isPrefixOf k ∧ k ∈ m.keys then
        match d2.lookup (k.drop (pre.length + 1)) with
        | some v => v
        | none => m.params k
      else m.params k }

/-- Result of `load_gumbel_weight`: the returned arg-max index vector, the
post-call instance state, and the checkpoint paths passed to `torch.load`, in
load order. -/
structure GumbelLoad (V : Type) where
  index : List ℕ
  net : Net V
  paths : List String

/-- `load_gumbel_weight`: arg-max of the uncombined relaxation weights, then a
non-strict baseline load of checkpoint id `42`, then one per-group load per
block name with checkpoint id `index[idx] + 1`.  The checkpoint store is a
function from path to loaded dictionary. -/
noncomputable def loadGumbelWeight {V : Type} (store : String → Dict V)
    (m : Net V) : GumbelLoad V :=
  let weights := archWeightsUncat m
  let index := weights.map argmaxIdx
  let p0 := fmtPath m.weightRoot m.modelName 42
  let m1 := loadNonStrict m (store p0)
  let step := fun (acc : Net V × List String) (name : String) =>
    let idx := blockNames.indexOf name
    let p := fmtPath acc.1.weightRoot acc.1.modelName (index.getD idx 0 + 1)
    (loadGroup acc.1 name (store p), acc.2 ++ [p])
  let r := blockNames.foldl step (m1, [p0])
  ⟨index, r.1, r.2⟩

/-- Result of a successful `load_combination_weight`: post-call state and the
checkpoint paths passed to `torch.load`, in load order. -/
structure CombLoad (V : Type) where
  net : Net V
  paths : List String

/-- `load_combination_weight`: a strict baseline load of checkpoint id `50`
from the caller-supplied folder and model name (fatal on key mismatch), then
the same per-group non-strict loads with checkpoint id `combination[idx] + 1`. -/
def loadCombinationWeight {V : Type} (store : String → Dict V) (m : Net V)
    (combination : List ℕ) (weightFolder modelName : String) :
    Except Unit (CombLoad V) :=
  let p0 := fmtPath weightFolder modelName 50
  match loadStrict m (store p0) with
  | .error e => .error e
  | .ok m1 =>
    let step := fun (acc : Net V × List String) (name : String) =>
      let idx := blockNames.indexOf name
      let p := fmtPath weightFolder modelName (combination.getD idx 0 + 1)
      (loadGroup acc.1 name (store p), acc.2 ++ [p])
    let r := blockNames.foldl step (m1, [p0])
    .ok ⟨r.1, r.2⟩

/-- Static description of one residual block as constructed by `_make_layer`:
input channel count, nominal width, stride, and whether a downsample path was
constructed. -/
structure BlockDescr where
  inplanes : ℕ
  planes : ℕ
  stride : ℕ
  hasDownsample : Bool
  deriving DecidableEq, Repr, Inhabited

/-- Output channel count of a block: `planes * expansion`. -/
def BlockDescr.outC (e : ℕ) (b : BlockDescr) : ℕ :=
  b.planes * e

/-- `_make_layer(block, planes, blocks, stride)`: a downsample path is built
iff `stride != 1 or self.inplanes != planes * block.expansion`; the first block
gets the stride and the downsample, the remaining `blocks - 1` get stride 1 and
the updated input channel count `planes * expansion`.  Returns the block list
and the updated running `self.inplanes`. -/
def makeLayer (e inplanes planes blocks stride : ℕ) : List BlockDescr × ℕ :=
  let ds : Bool := decide (stride ≠ 1 ∨ inplanes ≠ planes * e)
  let first : BlockDescr := ⟨inplanes, planes, stride, ds⟩
  let rest : List BlockDescr := List.replicate (blocks - 1) ⟨planes * e, planes, 1, false⟩
  (first :: rest, planes * e)

/-- The four stages built by `__init__`: widths 64, 128, 256, 512, stride 2 on
every stage but the first, with the running input channel count starting at 64
and threaded through `_make_layer`. -/
def resnetStages (e l1 l2 l3 l4 : ℕ) : List (List BlockDescr) :=
  let s1 := makeLayer e 64 64 l1 1
  let s2 := makeLayer e s1.2 128 l2 2
  let s3 := makeLayer e s2.2 256 l3 2
  let s4 := makeLayer e s3.2 512 l4 2
  [s1.1, s2.1, s3.1, s4.1]

/-- Spatial/channel shape of a feature map: channels, height, width. -/
structure Shape3 where
  c : ℕ
  h : ℕ
  w : ℕ
  deriving DecidableEq, Repr

/-- Output shape of `nn.Conv2d` with `cout` output channels, square kernel `k`,
stride `s`, padding `p` (batch-norm and ReLU preserve shape). -/
def conv2dShape (cout k s p : ℕ) (sh : Shape3) : Shape3 :=
  ⟨cout, (sh.h + 2 * p - k) / s + 1, (sh.w + 2 * p - k) / s + 1⟩

/-- Main-path output shape of `BasicBlock`: two 3x3 convolutions with padding
1, the first strided. -/
def basicMainShape (planes stride : ℕ) (sh : Shape3) : Shape3 :=
  conv2dShape planes 3 1 1 (conv2dShape planes 3 stride 1 sh)

/-- Main-path output shape of `Bottleneck`: 1x1 reduce, strided 3x3 with
padding 1, 1x1 expand by 4. -/
def bottleneckMainShape (planes stride : ℕ) (sh : Shape3) : Shape3 :=
  conv2dShape (planes * 4) 1 1 0 (conv2dShape planes 3 stride 1 (conv2dShape planes 1 1 0 sh))

/-- Output shape of the downsample path built by `_make_layer`: a single 1x1
convolution with the block's stride (followed by shape-preserving batch norm). -/
def downsampleShape (outC stride : ℕ) (sh : Shape3) : Shape3 :=
  conv2dShape outC 1 stride 0 sh

/-- A feature map value: channels, each a list of rows of reals. -/
abbrev FeatMap : Type := List (List (List ℝ))

/-- Start of the `i`-th adaptive pooling window over `inN` input positions and
`outN` output positions. -/
def adaStart (i outN inN : ℕ) : ℕ :=
  i * inN / outN

/-- End (exclusive) of the `i`-th adaptive pooling window. -/
def adaEnd (i outN inN : ℕ) : ℕ :=
  ((i + 1) * inN + outN - 1) / outN

/-- The `i`-th of `outN` adaptive pooling windows of a list. -/
def adaWindow {α : Type} (outN i : ℕ) (l : List α) : List α :=
  (l.drop (adaStart i outN l.length)).take (adaEnd i outN l.length - adaStart i outN l.length)

/-- `nn.AdaptiveAvgPool2d(2)` on one channel: the mean of each of the 2x2
window grids. -/
noncomputable def avgpool2Chan (ch : List (List ℝ)) : List (List ℝ) :=
  (List.range 2).map fun i =>
    (List.range 2).map fun j =>
      let cells := ((adaWindow 2 i ch).map (fun r => adaWindow 2 j r)).flatten
      cells.sum / (cells.length : ℝ)

/-- `self.avgpool` applied channelwise. -/
noncomputable def avgpool2 (x : FeatMap) : FeatMap :=
  x.map avgpool2Chan

/-- `x.view(x.size(0), -1)` for one batch element: flatten channels and rows. -/
def flattenFeat (x : FeatMap) : List ℝ :=
  (x.map List.flatten).flatten

/-- Dot product of two real vectors. -/
def dotProd (a b : List ℝ) : ℝ :=
  (List.zipWith (fun x y => x * y) a b).sum

/-- `nn.Linear` with weight rows `W` and bias `b`. -/
def linearMap (W : List (List ℝ)) (b : List ℝ) (v : List ℝ) : List ℝ :=
  (W.zip b).map (fun rb => dotProd rb.1 v + rb.2)

/-- `in_features` of `self.fc`, from `nn.Linear(512 * block.expansion * 4, num_classes)`. -/
def fcInFeatures (e : ℕ) : ℕ :=
  512 * e * 4

/-- Tail of `forward` after the four stages, for one batch element:
`avgpool` to 2x2, flatten, `self.fc`, and division of the logits by
`self.temp`; nothing follows the division. -/
noncomputable def forwardHead (W : List (List ℝ)) (b : List ℝ) (temp : ℝ)
    (feat : FeatMap) : List ℝ :=
  (linearMap W b (flattenFeat (avgpool2 feat))).map (fun z => z / temp)

/-- `forward` for one batch element: the stem and the four stages read only
the registered parameters (abstracted by `body`, a function of the parameter
assignment), then the concrete head; `fcW` and `fcB` extract the `fc` weight
and bias from the registered parameters.  `alphas` and `gumbel` are not read. -/
noncomputable def netForward {V : Type} (body : (Key → V) → FeatMap → FeatMap)
    (fcW : (Key → V) → List (List ℝ)) (fcB : (Key → V) → List ℝ)
    (m : Net V) (x : FeatMap) : List ℝ :=
  forwardHead (fcW m.params) (fcB m.params) m.temp (body m.params x)

/-- Constructor-level configuration recorded by `ResNet.__init__` (lines
112-121): the scalar attributes and the fixed literals. -/
structure ResNetCfg where
  expansion : ℕ
  layers : List ℕ
  tau : ℝ
  numClasses : ℕ
  temp : ℝ
  weightRoot : String
  modelName : String
  blockNameList : List String

/-- `ResNet.__init__` configuration effect: records the stage sizes and sets
`self.block_names` and `self.model_name` to their fixed literals. -/
def resnetInitCfg (expansion : ℕ) (layers : List ℕ) (tau temp : ℝ)
    (numClasses : ℕ) (weightRoot : String) : ResNetCfg :=
  ⟨expansion, layers, tau, numClasses, temp, weightRoot, "resnet50_ti", blockNames⟩

/-- `resnet18`: `ResNet(BasicBlock, [2, 2, 2, 2], ...)`. -/
def resnet18 (tau temp : ℝ) (numClasses : ℕ) (weightRoot : String) : ResNetCfg :=
  resnetInitCfg 1 [2, 2, 2, 2] tau temp numClasses weightRoot

/-- `resnet34`: `ResNet(BasicBlock, [3, 4, 6, 3], ...)`. -/
def resnet34 (tau temp : ℝ) (numClasses : ℕ) (weightRoot : String) : ResNetCfg :=
  resnetInitCfg 1 [3, 4, 6, 3] tau temp numClasses weightRoot

/-- `resnet50`: `ResNet(Bottleneck, [3, 4, 6, 3], ...)`. -/
def resnet50 (tau temp : ℝ) (numClasses : ℕ) (weightRoot : String) : ResNetCfg :=
  resnetInitCfg 4 [3, 4, 6, 3] tau temp numClasses weightRoot

/-- `resnet101`: `ResNet(Bottleneck, [3, 4, 23, 3], ...)`. -/
def resnet101 (tau temp : ℝ) (numClasses : ℕ) (weightRoot : String) : ResNetCfg :=
  resnetInitCfg 4 [3, 4, 23, 3] tau temp numClasses weightRoot

/-- `resnet110`: `ResNet(Bottleneck, [3, 4, 26, 3], ...)`. -/
def resnet110 (tau temp : ℝ) (numClasses : ℕ) (weightRoot : String) : ResNetCfg :=
  resnetInitCfg 4 [3, 4, 26, 3] tau temp numClasses weightRoot

/-- `resnet152`: `ResNet(Bottleneck, [3, 8, 36, 3], ...)`. -/
def resnet152 (tau temp : ℝ) (numClasses : ℕ) (weightRoot : String) : ResNetCfg :=
  resnetInitCfg 4 [3, 8, 36, 3] tau temp numClasses weightRoot

/-- A concrete instance state used to instantiate theorems with hypotheses. -/
def netW : Net ℕ :=
  ⟨[], fun _ => 0, [], [], 1, 1, "weights", "resnet50_ti"⟩

/-- The concrete instance after `_initialize_alphas` with zero draws. -/
def netInitW : Net ℕ :=
  initializeAlphas netW (fun _ _ => 0) (fun _ _ => 0)

theorem sum_map_exp_pos (r : List ℝ) (h : r ≠ []) : 0 < (r.map Real.exp).sum := by
  cases r with
  | nil => simp at h
  | cons a t =>
    simp only [List.map_cons, List.sum_cons]
    have h1 : 0 < Real.exp a := Real.exp_pos a
    have h2 : 0 ≤ (t.map Real.exp).sum := by
      apply List.sum_nonneg
      intro x hx
      simp only [List.mem_map] at hx
      obtain ⟨y, _, rfl⟩ := hx
      exact (Real.exp_pos y).le
    linarith

theorem softmaxRow_sum (r : List ℝ) (h : r ≠ []) : (softmaxRow r).sum = 1 := by
  have hpos := sum_map_exp_pos r h
  unfold softmaxRow
  rw [show (fun x => Real.exp x / (r.map Real.exp).sum)
      = fun x => Real.exp x * ((r.map Real.exp).sum)⁻¹ by funext x; rw [div_eq_mul_inv]]
  rw [List.sum_map_mul_right]
  field_simp

@[simp]
theorem softmaxRow_length (r : List ℝ) : (softmaxRow r).length = r.length := by
  simp [softmaxRow]

theorem sum_map_length {α : Type} (l : List (List α)) (n c : ℕ)
    (hl : l.length = n) (hc : ∀ r ∈ l, r.length = c) :
    (l.map List.length).sum = n * c := by
  induction l generalizing n with
  | nil => simp [← hl]
  | cons a t ih =>
    subst hl
    simp only [List.map_cons, List.sum_cons, List.length_cons]
    rw [hc a (List.mem_cons_self a t),
      ih t.length rfl (fun r hr => hc r (List.mem_cons_of_mem a hr))]
    ring

theorem mem_uncat_row {V : Type} (m : Net V) (r : List ℝ)
    (hr : r ∈ archWeightsUncat m) :
    ∃ a ∈ m.alphas, ∃ g ∈ m.gumbel,
      r = softmaxRow (List.zipWith (fun x y => (x + y) / m.tau) a g) := by
  unfold archWeightsUncat gumbelSoftmax at hr
  rw [List.mem_iff_get] at hr
  obtain ⟨⟨i, hi⟩, hget⟩ := hr
  rw [List.length_zipWith] at hi
  have hia : i < m.alphas.length := lt_of_lt_of_le hi (min_le_left _ _)
  have hig : i < m.gumbel.length := lt_of_lt_of_le hi (min_le_right _ _)
  refine ⟨m.alphas[i], List.getElem_mem hia, m.gumbel[i], List.getElem_mem hig, ?_⟩
  rw [← hget]
  simp [List.getElem_zipWith]

/-- C1: with the configured `k = 5` decision points and `num_ops = 100`
candidates, `arch_weights(cat=True)` is one flat sequence of length
`5 * 100 = 500`; `arch_weights(cat=False)` is `5` sequences of length `100`
each, and every per-decision-point sequence sums to `1` (softmax
normalization along the candidate axis). -/
theorem arch_weights_shape_and_norm {V : Type} (m : Net V)
    (ha5 : m.alphas.length = 5) (ha100 : ∀ r ∈ m.alphas, r.length = 100)
    (hg5 : m.gumbel.length = 5) (hg100 : ∀ r ∈ m.gumbel, r.length = 100) :
    (archWeightsCat m).length = 5 * 100 ∧
    (archWeightsUncat m).length = 5 ∧
    (∀ r ∈ archWeightsUncat m, r.length = 100 ∧ r.sum = 1) := by
  have hrow : ∀ r ∈ archWeightsUncat m, r.length = 100 ∧ r.sum = 1 := by
    intro r hr
    obtain ⟨a, haMem, g, hgMem, rfl⟩ := mem_uncat_row m r hr
    have hlen : (List.zipWith (fun x y => (x + y) / m.tau) a g).length = 100 := by
      rw [List.length_zipWith, ha100 a haMem, hg100 g hgMem]
      simp
    constructor
    · rw [softmaxRow_length, hlen]
    · apply softmaxRow_sum
      intro hnil
      rw [hnil] at hlen
      simp at hlen
  have hu : (archWeightsUncat m).length = 5 := by
    unfold archWeightsUncat gumbelSoftmax
    rw [List.length_zipWith, ha5, hg5]
    simp
  refine ⟨?_, hu, hrow⟩
  unfold archWeightsCat
  rw [List.length_flatten]
  exact sum_map_length _ 5 100 hu (fun r hr => (hrow r hr).1)

theorem arch_weights_shape_and_norm_witness :
    (netInitW.alphas.length = 5 ∧ (∀ r ∈ netInitW.alphas, r.length = 100) ∧
      netInitW.gumbel.length = 5 ∧ (∀ r ∈ netInitW.gumbel, r.length = 100)) ∧
    ((archWeightsCat netInitW).length = 5 * 100 ∧
      (archWeightsUncat netInitW).length = 5 ∧
      (∀ r ∈ archWeightsUncat netInitW, r.length = 100 ∧ r.sum = 1)) := by
  have h1 : netInitW.alphas.length = 5 := by simp [netInitW, initializeAlphas]
  have h2 : ∀ r ∈ netInitW.alphas, r.length = 100 := by
    intro r hr
    simp only [netInitW, initializeAlphas, List.mem_ofFn] at hr
    obtain ⟨i, rfl⟩ := hr
    simp
  have h3 : netInitW.gumbel.length = 5 := by simp [netInitW, initializeAlphas]
  have h4 : ∀ r ∈ netInitW.gumbel, r.length = 100 := by
    intro r hr
    simp only [netInitW, initializeAlphas, List.mem_ofFn] at hr
    obtain ⟨i, rfl⟩ := hr
    simp
  exact ⟨⟨h1, h2, h3, h4⟩, arch_weights_shape_and_norm netInitW h1 h2 h3 h4⟩

/-- C2: the Gumbel noise tensor is fixed at construction: a call to
`arch_weights` leaves the instance state (in particular `gumbel`) unchanged,
and any two calls on instance states with the same `alphas`, `gumbel`, and
`tau` return identical results — so two successive calls on one instance
agree. -/
theorem arch_weights_fixed_gumbel {V : Type} (m m' : Net V)
    (ha : m'.alphas = m.alphas) (hg : m'.gumbel = m.gumbel) (ht : m'.tau = m.tau) :
    (archWeightsCall m).2 = m ∧
    (archWeightsCall m).2.gumbel = m.gumbel ∧
    (archWeightsCall m').1 = (archWeightsCall m).1 := by
  refine ⟨rfl, rfl, ?_⟩
  simp [archWeightsCall, archWeightsUncat, ha, hg, ht]

theorem conv2dShape_k3 (cout s : ℕ) (sh : Shape3) :
    conv2dShape cout 3 s 1 sh = ⟨cout, (sh.h - 1) / s + 1, (sh.w - 1) / s + 1⟩ := by
  obtain ⟨c, h, w⟩ := sh
  simp only [conv2dShape]
  have e1 : h + 2 * 1 - 3 = h - 1 := by omega
  have e2 : w + 2 * 1 - 3 = w - 1 := by omega
  rw [e1, e2]

theorem conv2dShape_k1 (cout s : ℕ) (sh : Shape3) :
    conv2dShape cout 1 s 0 sh = ⟨cout, (sh.h - 1) / s + 1, (sh.w - 1) / s + 1⟩ := by
  obtain ⟨c, h, w⟩ := sh
  simp only [conv2dShape]
  have e1 : h + 2 * 0 - 1 = h - 1 := by omega
  have e2 : w + 2 * 0 - 1 = w - 1 := by omega
  rw [e1, e2]

theorem basicMainShape_eq (planes stride : ℕ) (sh : Shape3) :
    basicMainShape planes stride sh =
      ⟨planes, (sh.h - 1) / stride + 1, (sh.w - 1) / stride + 1⟩ := by
  simp [basicMainShape, conv2dShape_k3]

theorem bottleneckMainShape_eq (planes stride : ℕ) (sh : Shape3) :
    bottleneckMainShape planes stride sh =
      ⟨planes * 4, (sh.h - 1) / stride + 1, (sh.w - 1) / stride + 1⟩ := by
  simp [bottleneckMainShape, conv2dShape_k3, conv2dShape_k1]

theorem downsampleShape_eq (outC stride : ℕ) (sh : Shape3) :
    downsampleShape outC stride sh =
      ⟨outC, (sh.h - 1) / stride + 1, (sh.w - 1) / stride + 1⟩ := by
  simp [downsampleShape, conv2dShape_k1]

/-- C5: every block built by `_make_layer` has a downsample path iff its
stride differs from 1 or its incoming channel count differs from
`planes * expansion`; the downsample path is the single 1x1
convolution-plus-normalization of `downsampleShape`, and for both block
variants (expansion 1 and 4) its output shape equals the main path's output
shape, so the residual addition is well-formed. -/
theorem downsample_presence_and_shape (e inplanes planes blocks stride : ℕ)
    (planes' stride' : ℕ) (sh : Shape3) :
    (∀ b ∈ (makeLayer e inplanes planes blocks stride).1,
      b.hasDownsample = true ↔ (b.stride ≠ 1 ∨ b.inplanes ≠ b.planes * e)) ∧
    downsampleShape (planes' * 1) stride' sh = basicMainShape planes' stride' sh ∧
    downsampleShape (planes' * 4) stride' sh = bottleneckMainShape planes' stride' sh := by
  refine ⟨?_, ?_, ?_⟩
  · intro b hb
    simp only [makeLayer, List.mem_cons] at hb
    rcases hb with rfl | hb
    · simp
    · have hbv := List.eq_of_mem_replicate hb
      subst hbv
      simp
  · rw [downsampleShape_eq, basicMainShape_eq, Nat.mul_one]
  · rw [downsampleShape_eq, bottleneckMainShape_eq]

theorem downsample_presence_and_shape_witness :
    ((⟨64, 128, 2, true⟩ : BlockDescr) ∈ (makeLayer 1 64 128 2 2).1) ∧
    ((true = true) ↔ ((2 : ℕ) ≠ 1 ∨ (64 : ℕ) ≠ 128 * 1)) ∧
    downsampleShape (32 * 1) 2 ⟨16, 8, 8⟩ = basicMainShape 32 2 ⟨16, 8, 8⟩ ∧
    downsampleShape (32 * 4) 2 ⟨16, 8, 8⟩ = bottleneckMainShape 32 2 ⟨16, 8, 8⟩ :=
  ⟨by decide,
    (downsample_presence_and_shape 1 64 128 2 2 32 2 ⟨16, 8, 8⟩).1
      (⟨64, 128, 2, true⟩ : BlockDescr) (by decide),
    (downsample_presence_and_shape 1 64 128 2 2 32 2 ⟨16, 8, 8⟩).2.1,
    (downsample_presence_and_shape 1 64 128 2 2 32 2 ⟨16, 8, 8⟩).2.2⟩

theorem chain'_cons_replicate {α : Type} (R : α → α → Prop) (n : ℕ) (a b : α)
    (hab : R a b) (hbb : R b b) : List.Chain' R (a :: List.replicate n b) := by
  induction n generalizing a with
  | zero => simp
  | succ k ih =>
    rw [List.replicate_succ, List.chain'_cons]
    exact ⟨hab, ih b hbb⟩

/-- C6: backbone construction threads a running input-channel count starting
at 64; the four stages use widths 64, 128, 256, 512 with stride 2 on every
stage but the first; inside a stage only the first block carries the stage
stride (and possibly a downsample) while every later block has stride 1, no
downsample, and input channels `width * expansion`; hence the channel count
entering block `i+1` of a stage equals the channel count leaving block `i`. -/
theorem backbone_stage_invariants (e l1 l2 l3 l4 : ℕ)
    (h1 : 1 ≤ l1) (h2 : 1 ≤ l2) (h3 : 1 ≤ l3) (h4 : 1 ≤ l4) :
    (resnetStages e l1 l2 l3 l4).map (fun s => s.map (fun b => b.planes)) =
      [List.replicate l1 64, List.replicate l2 128,
        List.replicate l3 256, List.replicate l4 512] ∧
    (resnetStages e l1 l2 l3 l4).map (fun s => (s.headI.stride, s.headI.inplanes)) =
      [(1, 64), (2, 64 * e), (2, 128 * e), (2, 256 * e)] ∧
    (∀ s ∈ resnetStages e l1 l2 l3 l4, ∀ b ∈ s.tail,
      b.stride = 1 ∧ b.hasDownsample = false ∧ b.inplanes = b.planes * e) ∧
    (∀ s ∈ resnetStages e l1 l2 l3 l4,
      List.Chain' (fun a b => b.inplanes = BlockDescr.outC e a) s) := by
  obtain ⟨a1, rfl⟩ : ∃ a, l1 = a + 1 := ⟨l1 - 1, by omega⟩
  obtain ⟨a2, rfl⟩ : ∃ a, l2 = a + 1 := ⟨l2 - 1, by omega⟩
  obtain ⟨a3, rfl⟩ : ∃ a, l3 = a + 1 := ⟨l3 - 1, by omega⟩
  obtain ⟨a4, rfl⟩ : ∃ a, l4 = a + 1 := ⟨l4 - 1, by omega⟩
  refine ⟨?_, ?_, ?_, ?_⟩
  · simp [resnetStages, makeLayer, List.replicate_succ, List.map_replicate]
  · simp [resnetStages, makeLayer]
  · intro s hs b hb
    simp only [resnetStages, makeLayer, List.mem_cons, List.not_mem_nil, or_false] at hs
    rcases hs with rfl | rfl | rfl | rfl <;>
      · simp only [List.tail_cons] at hb
        have hbv := List.eq_of_mem_replicate hb
        subst hbv
        exact ⟨rfl, rfl, rfl⟩
  · intro s hs
    simp only [resnetStages, makeLayer, List.mem_cons, List.not_mem_nil, or_false] at hs
    rcases hs with rfl | rfl | rfl | rfl <;>
      exact chain'_cons_replicate _ _ _ _ rfl rfl

theorem backbone_stage_invariants_witness :
    ((1 : ℕ) ≤ 2 ∧ (1 : ℕ) ≤ 2 ∧ (1 : ℕ) ≤ 2 ∧ (1 : ℕ) ≤ 2) ∧
    ((resnetStages 1 2 2 2 2).map (fun s => s.map (fun b => b.planes)) =
      [List.replicate 2 64, List.replicate 2 128,
        List.replicate 2 256, List.replicate 2 512] ∧
    (resnetStages 1 2 2 2 2).map (fun s => (s.headI.stride, s.headI.inplanes)) =
      [(1, 64), (2, 64 * 1), (2, 128 * 1), (2, 256 * 1)] ∧
    (∀ s ∈ resnetStages 1 2 2 2 2, ∀ b ∈ s.tail,
      b.stride = 1 ∧ b.hasDownsample = false ∧ b.inplanes = b.planes * 1) ∧
    (∀ s ∈ resnetStages 1 2 2 2 2,
      List.Chain' (fun a b => b.inplanes = BlockDescr.outC 1 a) s)) :=
  ⟨⟨by decide, by decide, by decide, by decide⟩,
    backbone_stage_invariants 1 2 2 2 2 (by decide) (by decide) (by decide) (by decide)⟩

theorem arch_weights_fixed_gumbel_witness :
    (netW.alphas = netW.alphas ∧ netW.gumbel = netW.gumbel ∧ netW.tau = netW.tau) ∧
    ((archWeightsCall netW).2 = netW ∧
      (archWeightsCall netW).2.gumbel = netW.gumbel ∧
      (archWeightsCall netW).1 = (archWeightsCall netW).1) :=
  ⟨⟨rfl, rfl, rfl⟩, arch_weights_fixed_gumbel netW netW rfl rfl rfl⟩

@[simp]
theorem loadNonStrict_alphas {V : Type} (m : Net V) (d : Dict V) :
    (loadNonStrict m d).alphas = m.alphas := rfl

@[simp]
theorem loadNonStrict_gumbel {V : Type} (m : Net V) (d : Dict V) :
    (loadNonStrict m d).gumbel = m.gumbel := rfl

@[simp]
theorem loadNonStrict_keys {V : Type} (m : Net V) (d : Dict V) :
    (loadNonStrict m d).keys = m.keys := rfl

@[simp]
theorem loadNonStrict_weightRoot {V : Type} (m : Net V) (d : Dict V) :
    (loadNonStrict m d).weightRoot = m.weightRoot := rfl

@[simp]
theorem loadNonStrict_modelName {V : Type} (m : Net V) (d : Dict V) :
    (loadNonStrict m d).modelName = m.modelName := rfl

@[simp]
theorem loadGroup_alphas {V : Type} (m : Net V) (g : String) (d : Dict V) :
    (loadGroup m g d).alphas = m.alphas := rfl

@[simp]
theorem loadGroup_gumbel {V : Type} (m : Net V) (g : String) (d : Dict V) :
    (loadGroup m g d).gumbel = m.gumbel := rfl

@[simp]
theorem loadGroup_keys {V : Type} (m : Net V) (g : String) (d : Dict V) :
    (loadGroup m g d).keys = m.keys := rfl

@[simp]
theorem loadGroup_weightRoot {V : Type} (m : Net V) (g : String) (d : Dict V) :
    (loadGroup m g d).weightRoot = m.weightRoot := rfl

@[simp]
theorem loadGroup_modelName {V : Type} (m : Net V) (g : String) (d : Dict V) :
    (loadGroup m g d).modelName = m.modelName := rfl

theorem loadNonStrict_params_of_lookup {V : Type} (m : Net V) (d : Dict V)
    (k : Key) (v : V) (hmem : k ∈ m.keys) (h : d.lookup k = some v) :
    (loadNonStrict m d).params k = v := by
  simp [loadNonStrict, hmem, h]

theorem loadNonStrict_params_of_none {V : Type} (m : Net V) (d : Dict V)
    (k : Key) (h : d.lookup k = none) :
    (loadNonStrict m d).params k = m.params k := by
  by_cases hmem : k ∈ m.keys <;> simp [loadNonStrict, hmem, h]

theorem loadNonStrict_params_of_not_mem {V : Type} (m : Net V) (d : Dict V)
    (k : Key) (h : k ∉ m.keys) :
    (loadNonStrict m d).params k = m.params k := by
  simp [loadNonStrict, h]

theorem loadGroup_params_of_not_pre {V : Type} (m : Net V) (g : String) (d : Dict V)
    (k : Key) (h : ¬ (g.toList ++ ['.']).isPrefixOf k) :
    (loadGroup m g d).params k = m.params k := by
  simp only [loadGroup]
  rw [if_neg (fun hc => h hc.1)]

theorem loadGroup_params_of_not_mem {V : Type} (m : Net V) (g : String) (d : Dict V)
    (k : Key) (h : k ∉ m.keys) :
    (loadGroup m g d).params k = m.params k := by
  simp only [loadGroup]
  rw [if_neg (fun hc => h hc.2)]

theorem lookup_append {V : Type} (l₁ l₂ : Dict V) (a : Key) :
    (l₁ ++ l₂).lookup a = ((l₁.lookup a).map some).getD (l₂.lookup a) := by
  induction l₁ with
  | nil => simp
  | cons kv t ih =>
    obtain ⟨k0, v0⟩ := kv
    simp only [List.cons_append, List.lookup_cons]
    cases h : (a == k0) <;> simp [h, ih]

theorem stripCount_blockNames : ∀ g ∈ blockNames,
    stripCount g = g.toList.length + 1 := by decide

theorem groupPre_incompat : ∀ g ∈ blockNames, ∀ g' ∈ blockNames, g ≠ g' →
    ¬ ((g.toList ++ ['.']) <+: (g'.toList ++ ['.'])) := by decide

theorem groupPre_exclusive {g g' : String} (hg : g ∈ blockNames)
    (hg' : g' ∈ blockNames) (hne : g ≠ g') {k : Key}
    (h1 : (g.toList ++ ['.']).isPrefixOf k) :
    ¬ (g'.toList ++ ['.']).isPrefixOf k := by
  intro h2
  have p1 := List.isPrefixOf_iff_prefix.mp h1
  have p2 := List.isPrefixOf_iff_prefix.mp h2
  rcases List.prefix_or_prefix_of_prefix p1 p2 with h | h
  · exact groupPre_incompat g hg g' hg' hne h
  · exact groupPre_incompat g' hg' g hg (Ne.symm hne) h

theorem lookup_modified {V : Type} (name : String) (d : Dict V)
    (hsc : stripCount name = name.toList.length + 1)
    (hyg : ∀ kv ∈ d, name.toList.isPrefixOf kv.1 →
      (name.toList ++ ['.']).isPrefixOf kv.1)
    (s : Key) :
    ((d.filter (fun kv => name.toList.isPrefixOf kv.1)).map
        (fun kv => (kv.1.drop (stripCount name), kv.2))).lookup s
      = d.lookup (name.toList ++ '.' :: s) := by
  induction d with
  | nil => simp
  | cons kv t ih =>
    have ih' := ih (fun x hx hpx => hyg x (List.mem_cons_of_mem kv hx) hpx)
    obtain ⟨k0, v0⟩ := kv
    by_cases hpre : name.toList.isPrefixOf k0
    · have hdot : (name.toList ++ ['.']).isPrefixOf k0 :=
        hyg ⟨k0, v0⟩ (List.mem_cons_self _ _) hpre
      obtain ⟨t0, ht0⟩ := List.isPrefixOf_iff_prefix.mp hdot
      have hdrop : k0.drop (stripCount name) = t0 := by
        rw [hsc, ← ht0]
        have hlen : (name.toList ++ ['.']).length = name.toList.length + 1 := by simp
        rw [← hlen, List.drop_left]
      have key_eq : ((name.toList ++ '.' :: s) == k0) = (s == t0) := by
        rw [← ht0]
        have hsplit : (name.toList ++ ['.']) ++ t0 = name.toList ++ '.' :: t0 := by simp
        rw [hsplit]
        cases hst : (s == t0) with
        | true =>
          have : s = t0 := eq_of_beq hst
          subst this
          simp
        | false =>
          have hne : s ≠ t0 := beq_eq_false_iff_ne.mp hst
          apply beq_eq_false_iff_ne.mpr
          intro heq
          exact hne (List.cons_injective.eq_iff.mp (List.append_cancel_left heq))
      rw [List.filter_cons_of_pos (by simpa using hpre), List.map_cons, hdrop]
      rw [List.lookup_cons, List.lookup_cons, key_eq]
      cases hst : (s == t0) with
      | true => rfl
      | false => exact ih'
    · have hne0 : ((name.toList ++ '.' :: s) == k0) = false := by
        apply beq_eq_false_iff_ne.mpr
        intro heq
        apply hpre
        rw [← heq]
        rw [List.isPrefixOf_iff_prefix]
        exact ⟨'.' :: s, rfl⟩
      rw [List.filter_cons_of_neg (by simpa using hpre)]
      rw [List.lookup_cons, hne0]
      exact ih'

theorem loadGroup_params_lookup {V : Type} (m : Net V) (name : String) (d : Dict V)
    (hsc : stripCount name = name.toList.length + 1)
    (hyg : ∀ kv ∈ d, name.toList.isPrefixOf kv.1 →
      (name.toList ++ ['.']).isPrefixOf kv.1)
    (k : Key) (hk : (name.toList ++ ['.']).isPrefixOf k) (hmem : k ∈ m.keys) :
    (loadGroup m name d).params k =
      match d.lookup k with
      | some v => v
      | none =>
        match d.lookup (k.drop (name.toList.length + 1)) with
        | some v => v
        | none => m.params k := by
  obtain ⟨s0, hs0⟩ := List.isPrefixOf_iff_prefix.mp hk
  have hdrop : k.drop (name.toList.length + 1) = s0 := by
    rw [← hs0]
    have hlen : (name.toList ++ ['.']).length = name.toList.length + 1 := by simp
    rw [← hlen, List.drop_left]
  have hks : name.toList ++ '.' :: s0 = k := by
    rw [← hs0]
    simp
  simp only [loadGroup]
  rw [if_pos ⟨hk, hmem⟩, hdrop, lookup_append, lookup_modified name d hsc hyg s0, hks]
  cases h1 : d.lookup k <;> cases h2 : d.lookup s0 <;> simp

theorem foldl_net_preserve {V α : Type} (names : List String)
    (step : Net V × List String → String → Net V × List String)
    (P : Net V → α) (hstep : ∀ acc nm, P (step acc nm).1 = P acc.1) :
    ∀ acc, P ((names.foldl step acc).1) = P acc.1 := by
  induction names with
  | nil => intro acc; rfl
  | cons a t ih =>
    intro acc
    rw [List.foldl_cons, ih (step acc a), hstep]

theorem loadGumbelWeight_unfold {V : Type} (store : String → Dict V) (m : Net V) :
    loadGumbelWeight store m =
      ⟨(archWeightsUncat m).map argmaxIdx,
        loadGroup
          (loadGroup
            (loadGroup
              (loadGroup
                (loadGroup
                  (loadNonStrict m (store (fmtPath m.weightRoot m.modelName 42)))
                  "layer1"
                  (store (fmtPath m.weightRoot m.modelName
                    (((archWeightsUncat m).map argmaxIdx).getD 0 0 + 1))))
                "layer2"
                (store (fmtPath m.weightRoot m.modelName
                  (((archWeightsUncat m).map argmaxIdx).getD 1 0 + 1))))
              "layer3"
              (store (fmtPath m.weightRoot m.modelName
                (((archWeightsUncat m).map argmaxIdx).getD 2 0 + 1))))
            "layer4"
            (store (fmtPath m.weightRoot m.modelName
              (((archWeightsUncat m).map argmaxIdx).getD 3 0 + 1))))
          "fc"
          (store (fmtPath m.weightRoot m.modelName
            (((archWeightsUncat m).map argmaxIdx).getD 4 0 + 1))),
        [fmtPath m.weightRoot m.modelName 42,
          fmtPath m.weightRoot m.modelName
            (((archWeightsUncat m).map argmaxIdx).getD 0 0 + 1),
          fmtPath m.weightRoot m.modelName
            (((archWeightsUncat m).map argmaxIdx).getD 1 0 + 1),
          fmtPath m.weightRoot m.modelName
            (((archWeightsUncat m).map argmaxIdx).getD 2 0 + 1),
          fmtPath m.weightRoot m.modelName
            (((archWeightsUncat m).map argmaxIdx).getD 3 0 + 1),
          fmtPath m.weightRoot m.modelName
            (((archWeightsUncat m).map argmaxIdx).getD 4 0 + 1)]⟩ := rfl

theorem loadCombinationWeight_unfold {V : Type} (store : String → Dict V)
    (m : Net V) (c : List ℕ) (folder name : String)
    (hb : strictMatchB m.keys (store (fmtPath folder name 50)) = true) :
    loadCombinationWeight store m c folder name =
      .ok ⟨loadGroup
            (loadGroup
              (loadGroup
                (loadGroup
                  (loadGroup
                    (loadNonStrict m (store (fmtPath folder name 50)))
                    "layer1" (store (fmtPath folder name (c.getD 0 0 + 1))))
                  "layer2" (store (fmtPath folder name (c.getD 1 0 + 1))))
                "layer3" (store (fmtPath folder name (c.getD 2 0 + 1))))
              "layer4" (store (fmtPath folder name (c.getD 3 0 + 1))))
            "fc" (store (fmtPath folder name (c.getD 4 0 + 1))),
          [fmtPath folder name 50,
            fmtPath folder name (c.getD 0 0 + 1),
            fmtPath folder name (c.getD 1 0 + 1),
            fmtPath folder name (c.getD 2 0 + 1),
            fmtPath folder name (c.getD 3 0 + 1),
            fmtPath folder name (c.getD 4 0 + 1)]⟩ := by
  simp only [loadCombinationWeight, loadStrict, hb, if_true]
  rfl

theorem lookup_mem_values {V : Type} (d : Dict V) (a : Key) (v : V)
    (h : d.lookup a = some v) : v ∈ d.map Prod.snd := by
  induction d with
  | nil => simp at h
  | cons kv t ih =>
    obtain ⟨k0, v0⟩ := kv
    simp only [List.lookup_cons] at h
    cases ha : (a == k0) with
    | true =>
      rw [ha] at h
      simp only [List.map_cons]
      exact List.mem_cons.mpr (Or.inl (Option.some.inj h).symm)
    | false =>
      rw [ha] at h
      exact List.mem_cons_of_mem _ (ih h)

/-- C4: the baseline load of `load_combination_weight` is strict — the call is
fatal exactly when the baseline checkpoint's keys do not exactly match the
model's parameter names — while the non-strict loads used everywhere else
(the baseline of `load_gumbel_weight` and every per-group load) never fail:
keys missing from the dictionary keep their prior value, dictionary keys
absent from the model are silently dropped, and a per-group load leaves every
parameter either at its prior value or at a checkpoint value. -/
theorem strict_vs_nonstrict_loads {V : Type} (store : String → Dict V)
    (m : Net V) (combination : List ℕ) (folder name : String) (d : Dict V)
    (nm : String) (k : Key) :
    ((loadCombinationWeight store m combination folder name).isOk = true ↔
      strictMatchB m.keys (store (fmtPath folder name 50)) = true) ∧
    (d.lookup k = none → (loadNonStrict m d).params k = m.params k) ∧
    (k ∉ m.keys → (loadNonStrict m d).params k = m.params k) ∧
    (k ∉ m.keys → (loadGroup m nm d).params k = m.params k) ∧
    ((loadGroup m nm d).params k = m.params k ∨
      (loadGroup m nm d).params k ∈ d.map Prod.snd) := by
  refine ⟨?_, loadNonStrict_params_of_none m d k,
    loadNonStrict_params_of_not_mem m d k,
    loadGroup_params_of_not_mem m nm d k, ?_⟩
  · by_cases hb : strictMatchB m.keys (store (fmtPath folder name 50)) = true
    · rw [loadCombinationWeight_unfold store m combination folder name hb]
      exact iff_of_true rfl hb
    · simp only [loadCombinationWeight, loadStrict, if_neg hb]
      have herr : (Except.error () : Except Unit (CombLoad V)).isOk = false := rfl
      rw [herr]
      simp [hb]
  · by_cases hc : ((nm.toList ++ ['.']).isPrefixOf k ∧ k ∈ m.keys)
    · simp only [loadGroup]
      rw [if_pos hc]
      cases h2 : (((d.filter (fun kv => nm.toList.isPrefixOf kv.1)).map
          (fun kv => (kv.1.drop (stripCount nm), kv.2))) ++ d).lookup
            (k.drop (nm.toList.length + 1)) with
      | none => left; rfl
      | some v =>
        right
        have hv := lookup_mem_values _ _ _ h2
        rw [List.map_append] at hv
        rcases List.mem_append.mp hv with hv1 | hv2
        · rw [List.map_map] at hv1
          obtain ⟨kv0, hkv0, hv0⟩ := List.mem_map.mp hv1
          exact List.mem_map.mpr ⟨kv0, List.mem_of_mem_filter hkv0, by exact hv0⟩
        · exact hv2
    · simp only [loadGroup]
      rw [if_neg hc]
      exact Or.inl rfl

theorem strict_vs_nonstrict_loads_witness :
    ((([] : Dict ℕ).lookup (['a'] : Key) = none) ∧ ((['a'] : Key) ∉ netW.keys)) ∧
    (((loadCombinationWeight (fun _ => ([] : Dict ℕ)) netW [] "f" "n").isOk = true ↔
      strictMatchB netW.keys ((fun _ => ([] : Dict ℕ)) (fmtPath "f" "n" 50)) = true) ∧
    (loadNonStrict netW []).params ['a'] = netW.params ['a'] ∧
    (loadGroup netW "layer1" []).params ['a'] = netW.params ['a'] ∧
    ((loadGroup netW "layer1" []).params ['a'] = netW.params ['a'] ∨
      (loadGroup netW "layer1" []).params ['a'] ∈ ([] : Dict ℕ).map Prod.snd)) := by
  have h := strict_vs_nonstrict_loads (fun _ => ([] : Dict ℕ)) netW [] "f" "n" []
    "layer1" ['a']
  have hnone : ([] : Dict ℕ).lookup (['a'] : Key) = none := rfl
  have hnm : (['a'] : Key) ∉ netW.keys := by
    intro hmem
    simp [netW] at hmem
  exact ⟨⟨hnone, hnm⟩, h.1, h.2.1 hnone, h.2.2.2.1 hnm, h.2.2.2.2⟩

/-- C9: neither `load_gumbel_weight` nor `load_combination_weight` modifies
the Architecture Selection Tensor `alphas` or the Gumbel noise tensor
`gumbel`: both are plain tensor attributes outside the registered state-dict
keys, so every checkpoint-loading call leaves both unchanged. -/
theorem loads_preserve_arch_tensors {V : Type} (store : String → Dict V)
    (m : Net V) (combination : List ℕ) (folder name : String) :
    (loadGumbelWeight store m).net.alphas = m.alphas ∧
    (loadGumbelWeight store m).net.gumbel = m.gumbel ∧
    (match loadCombinationWeight store m combination folder name with
      | .ok r => r.net.alphas = m.alphas ∧ r.net.gumbel = m.gumbel
      | .error _ => True) := by
  refine ⟨?_, ?_, ?_⟩
  · rw [loadGumbelWeight_unfold]
    simp
  · rw [loadGumbelWeight_unfold]
    simp
  · by_cases hb : strictMatchB m.keys (store (fmtPath folder name 50)) = true
    · rw [loadCombinationWeight_unfold store m combination folder name hb]
      simp
    · simp [loadCombinationWeight, loadStrict, hb]

/-- C10: the two loading entry points use different hardcoded baseline
candidate ids — `load_gumbel_weight` loads baseline checkpoint id 42 while
`load_combination_weight` loads baseline checkpoint id 50 — and
`load_gumbel_weight` addresses every checkpoint with the instance's
`weight_root` and its `model_name`, which every constructor variant
(`resnet18` through `resnet152`) sets to the fixed literal `"resnet50_ti"`. -/
theorem hardcoded_checkpoint_ids {V : Type} (store : String → Dict V)
    (m : Net V) (combination : List ℕ) (folder name : String)
    (tau temp : ℝ) (nc : ℕ) (root : String) :
    (loadGumbelWeight store m).paths.head? =
      some (fmtPath m.weightRoot m.modelName 42) ∧
    (∀ p ∈ (loadGumbelWeight store m).paths,
      ∃ id, p = fmtPath m.weightRoot m.modelName id) ∧
    (match loadCombinationWeight store m combination folder name with
      | .ok r => r.paths.head? = some (fmtPath folder name 50)
      | .error _ => True) ∧
    (resnet18 tau temp nc root).modelName = "resnet50_ti" ∧
    (resnet34 tau temp nc root).modelName = "resnet50_ti" ∧
    (resnet50 tau temp nc root).modelName = "resnet50_ti" ∧
    (resnet101 tau temp nc root).modelName = "resnet50_ti" ∧
    (resnet110 tau temp nc root).modelName = "resnet50_ti" ∧
    (resnet152 tau temp nc root).modelName = "resnet50_ti" := by
  refine ⟨?_, ?_, ?_, rfl, rfl, rfl, rfl, rfl, rfl⟩
  · rw [loadGumbelWeight_unfold]
    rfl
  · rw [loadGumbelWeight_unfold]
    intro p hp
    simp only [List.mem_cons, List.not_mem_nil, or_false] at hp
    rcases hp with rfl | rfl | rfl | rfl | rfl | rfl
    · exact ⟨42, rfl⟩
    · exact ⟨((archWeightsUncat m).map argmaxIdx).getD 0 0 + 1, rfl⟩
    · exact ⟨((archWeightsUncat m).map argmaxIdx).getD 1 0 + 1, rfl⟩
    · exact ⟨((archWeightsUncat m).map argmaxIdx).getD 2 0 + 1, rfl⟩
    · exact ⟨((archWeightsUncat m).map argmaxIdx).getD 3 0 + 1, rfl⟩
    · exact ⟨((archWeightsUncat m).map argmaxIdx).getD 4 0 + 1, rfl⟩
  · by_cases hb : strictMatchB m.keys (store (fmtPath folder name 50)) = true
    · rw [loadCombinationWeight_unfold store m combination folder name hb]
      rfl
    · simp [loadCombinationWeight, loadStrict, hb]

/-- C3: `load_gumbel_weight` takes the un-concatenated per-decision-point
weights, arg-maxes each row to form the Combination it returns, loads the
fixed-id-42 baseline checkpoint non-strictly, then for the groups `layer1`,
`layer2`, `layer3`, `layer4`, `fc` in that order loads the checkpoint with
1-based candidate id `argmax + 1` and copies into the group's live parameters
exactly the checkpoint entries addressed under the group prefix (stripping the
group-name prefix), ignoring non-matching keys: a group-prefixed model key
takes the group checkpoint's value when present, and keeps its
baseline-loaded value when the checkpoint has no entry for it; keys outside
every group see only the baseline load.  (The hypothesis states that group
checkpoints address group parameters under dotted names, as PyTorch state
dicts do.) -/
theorem load_gumbel_weight_spec {V : Type} (store : String → Dict V) (m : Net V)
    (hyg : ∀ p, ∀ kv ∈ store p, ∀ g ∈ blockNames,
      g.toList.isPrefixOf kv.1 → (g.toList ++ ['.']).isPrefixOf kv.1) :
    (loadGumbelWeight store m).index = (archWeightsUncat m).map argmaxIdx ∧
    (loadGumbelWeight store m).paths =
      fmtPath m.weightRoot m.modelName 42 ::
        (List.range 5).map (fun i => fmtPath m.weightRoot m.modelName
          (((archWeightsUncat m).map argmaxIdx).getD i 0 + 1)) ∧
    (∀ k, (∀ g ∈ blockNames, ¬ (g.toList ++ ['.']).isPrefixOf k) →
      (loadGumbelWeight store m).net.params k =
        (loadNonStrict m (store (fmtPath m.weightRoot m.modelName 42))).params k) ∧
    (∀ g ∈ blockNames, ∀ k ∈ m.keys, (g.toList ++ ['.']).isPrefixOf k →
      (∀ v, (store (fmtPath m.weightRoot m.modelName
            (((archWeightsUncat m).map argmaxIdx).getD (blockNames.indexOf g) 0 + 1))).lookup k
          = some v →
        (loadGumbelWeight store m).net.params k = v) ∧
      ((store (fmtPath m.weightRoot m.modelName
            (((archWeightsUncat m).map argmaxIdx).getD (blockNames.indexOf g) 0 + 1))).lookup k
          = none →
        (store (fmtPath m.weightRoot m.modelName
            (((archWeightsUncat m).map argmaxIdx).getD (blockNames.indexOf g) 0 + 1))).lookup
            (k.drop (g.toList.length + 1)) = none →
        (loadGumbelWeight store m).net.params k =
          (loadNonStrict m (store (fmtPath m.weightRoot m.modelName 42))).params k)) := by
  refine ⟨rfl, by rw [loadGumbelWeight_unfold]; rfl, ?_, ?_⟩
  · intro k hk
    simp only [loadGumbelWeight_unfold]
    rw [loadGroup_params_of_not_pre _ _ _ k (hk "fc" (by decide)),
      loadGroup_params_of_not_pre _ _ _ k (hk "layer4" (by decide)),
      loadGroup_params_of_not_pre _ _ _ k (hk "layer3" (by decide)),
      loadGroup_params_of_not_pre _ _ _ k (hk "layer2" (by decide)),
      loadGroup_params_of_not_pre _ _ _ k (hk "layer1" (by decide))]
  · intro g hg k hkmem hpre
    fin_cases hg
    · -- layer1
      have hidx : blockNames.indexOf "layer1" = 0 := by decide
      have hnp : ∀ g' ∈ blockNames, "layer1" ≠ g' →
          ¬ (g'.toList ++ ['.']).isPrefixOf k :=
        fun g' hg' hne => groupPre_exclusive (by decide) hg' hne hpre
      constructor
      · intro v hv
        rw [hidx] at hv
        simp only [loadGumbelWeight_unfold]
        rw [loadGroup_params_of_not_pre _ _ _ k (hnp "fc" (by decide) (by decide)),
          loadGroup_params_of_not_pre _ _ _ k (hnp "layer4" (by decide) (by decide)),
          loadGroup_params_of_not_pre _ _ _ k (hnp "layer3" (by decide) (by decide)),
          loadGroup_params_of_not_pre _ _ _ k (hnp "layer2" (by decide) (by decide)),
          loadGroup_params_lookup _ "layer1" _
            (stripCount_blockNames "layer1" (by decide))
            (fun kv hkv hp => hyg _ kv hkv "layer1" (by decide) hp) k hpre
            (by simpa using hkmem),
          hv]
      · intro h1 h2
        rw [hidx] at h1 h2
        simp only [loadGumbelWeight_unfold]
        rw [loadGroup_params_of_not_pre _ _ _ k (hnp "fc" (by decide) (by decide)),
          loadGroup_params_of_not_pre _ _ _ k (hnp "layer4" (by decide) (by decide)),
          loadGroup_params_of_not_pre _ _ _ k (hnp "layer3" (by decide) (by decide)),
          loadGroup_params_of_not_pre _ _ _ k (hnp "layer2" (by decide) (by decide)),
          loadGroup_params_lookup _ "layer1" _
            (stripCount_blockNames "layer1" (by decide))
            (fun kv hkv hp => hyg _ kv hkv "layer1" (by decide) hp) k hpre
            (by simpa using hkmem),
          h1, h2]
    · -- layer2
      have hidx : blockNames.indexOf "layer2" = 1 := by decide
      have hnp : ∀ g' ∈ blockNames, "layer2" ≠ g' →
          ¬ (g'.toList ++ ['.']).isPrefixOf k :=
        fun g' hg' hne => groupPre_exclusive (by decide) hg' hne hpre
      constructor
      · intro v hv
        rw [hidx] at hv
        simp only [loadGumbelWeight_unfold]
        rw [loadGroup_params_of_not_pre _ _ _ k (hnp "fc" (by decide) (by decide)),
          loadGroup_params_of_not_pre _ _ _ k (hnp "layer4" (by decide) (by decide)),
          loadGroup_params_of_not_pre _ _ _ k (hnp "layer3" (by decide) (by decide)),
          loadGroup_params_lookup _ "layer2" _
            (stripCount_blockNames "layer2" (by decide))
            (fun kv hkv hp => hyg _ kv hkv "layer2" (by decide) hp) k hpre
            (by simpa using hkmem),
          hv]
      · intro h1 h2
        rw [hidx] at h1 h2
        simp only [loadGumbelWeight_unfold]
        rw [loadGroup_params_of_not_pre _ _ _ k (hnp "fc" (by decide) (by decide)),
          loadGroup_params_of_not_pre _ _ _ k (hnp "layer4" (by decide) (by decide)),
          loadGroup_params_of_not_pre _ _ _ k (hnp "layer3" (by decide) (by decide)),
          loadGroup_params_lookup _ "layer2" _
            (stripCount_blockNames "layer2" (by decide))
            (fun kv hkv hp => hyg _ kv hkv "layer2" (by decide) hp) k hpre
            (by simpa using hkmem),
          h1, h2,
          loadGroup_params_of_not_pre _ _ _ k (hnp "layer1" (by decide) (by decide))]
    · -- layer3
      have hidx : blockNames.indexOf "layer3" = 2 := by decide
      have hnp : ∀ g' ∈ blockNames, "layer3" ≠ g' →
          ¬ (g'.toList ++ ['.']).isPrefixOf k :=
        fun g' hg' hne => groupPre_exclusive (by decide) hg' hne hpre
      constructor
      · intro v hv
        rw [hidx] at hv
        simp only [loadGumbelWeight_unfold]
        rw [loadGroup_params_of_not_pre _ _ _ k (hnp "fc" (by decide) (by decide)),
          loadGroup_params_of_not_pre _ _ _ k (hnp "layer4" (by decide) (by decide)),
          loadGroup_params_lookup _ "layer3" _
            (stripCount_blockNames "layer3" (by decide))
            (fun kv hkv hp => hyg _ kv hkv "layer3" (by decide) hp) k hpre
            (by simpa using hkmem),
          hv]
      · intro h1 h2
        rw [hidx] at h1 h2
        simp only [loadGumbelWeight_unfold]
        rw [loadGroup_params_of_not_pre _ _ _ k (hnp "fc" (by decide) (by decide)),
          loadGroup_params_of_not_pre _ _ _ k (hnp "layer4" (by decide) (by decide)),
          loadGroup_params_lookup _ "layer3" _
            (stripCount_blockNames "layer3" (by decide))
            (fun kv hkv hp => hyg _ kv hkv "layer3" (by decide) hp) k hpre
            (by simpa using hkmem),
          h1, h2,
          loadGroup_params_of_not_pre _ _ _ k (hnp "layer2" (by decide) (by decide)),
          loadGroup_params_of_not_pre _ _ _ k (hnp "layer1" (by decide) (by decide))]
    · -- layer4
      have hidx : blockNames.indexOf "layer4" = 3 := by decide
      have hnp : ∀ g' ∈ blockNames, "layer4" ≠ g' →
          ¬ (g'.toList ++ ['.']).isPrefixOf k :=
        fun g' hg' hne => groupPre_exclusive (by decide) hg' hne hpre
      constructor
      · intro v hv
        rw [hidx] at hv
        simp only [loadGumbelWeight_unfold]
        rw [loadGroup_params_of_not_pre _ _ _ k (hnp "fc" (by decide) (by decide)),
          loadGroup_params_lookup _ "layer4" _
            (stripCount_blockNames "layer4" (by decide))
            (fun kv hkv hp => hyg _ kv hkv "layer4" (by decide) hp) k hpre
            (by simpa using hkmem),
          hv]
      · intro h1 h2
        rw [hidx] at h1 h2
        simp only [loadGumbelWeight_unfold]
        rw [loadGroup_params_of_not_pre _ _ _ k (hnp "fc" (by decide) (by decide)),
          loadGroup_params_lookup _ "layer4" _
            (stripCount_blockNames "layer4" (by decide))
            (fun kv hkv hp => hyg _ kv hkv "layer4" (by decide) hp) k hpre
            (by simpa using hkmem),
          h1, h2,
          loadGroup_params_of_not_pre _ _ _ k (hnp "layer3" (by decide) (by decide)),
          loadGroup_params_of_not_pre _ _ _ k (hnp "layer2" (by decide) (by decide)),
          loadGroup_params_of_not_pre _ _ _ k (hnp "layer1" (by decide) (by decide))]
    · -- fc
      have hidx : blockNames.indexOf "fc" = 4 := by decide
      have hnp : ∀ g' ∈ blockNames, "fc" ≠ g' →
          ¬ (g'.toList ++ ['.']).isPrefixOf k :=
        fun g' hg' hne => groupPre_exclusive (by decide) hg' hne hpre
      constructor
      · intro v hv
        rw [hidx] at hv
        simp only [loadGumbelWeight_unfold]
        rw [loadGroup_params_lookup _ "fc" _
            (stripCount_blockNames "fc" (by decide))
            (fun kv hkv hp => hyg _ kv hkv "fc" (by decide) hp) k hpre
            (by simpa using hkmem),
          hv]
      · intro h1 h2
        rw [hidx] at h1 h2
        simp only [loadGumbelWeight_unfold]
        rw [loadGroup_params_lookup _ "fc" _
            (stripCount_blockNames "fc" (by decide))
            (fun kv hkv hp => hyg _ kv hkv "fc" (by decide) hp) k hpre
            (by simpa using hkmem),
          h1, h2,
          loadGroup_params_of_not_pre _ _ _ k (hnp "layer4" (by decide) (by decide)),
          loadGroup_params_of_not_pre _ _ _ k (hnp "layer3" (by decide) (by decide)),
          loadGroup_params_of_not_pre _ _ _ k (hnp "layer2" (by decide) (by decide)),
          loadGroup_params_of_not_pre _ _ _ k (hnp "layer1" (by decide) (by decide))]

theorem load_gumbel_weight_spec_witness :
    (∀ _p : String, ∀ kv ∈ ([] : Dict ℕ), ∀ g ∈ blockNames,
      g.toList.isPrefixOf kv.1 → (g.toList ++ ['.']).isPrefixOf kv.1) ∧
    ((loadGumbelWeight (fun _ => ([] : Dict ℕ)) netW).index =
        (archWeightsUncat netW).map argmaxIdx ∧
      (loadGumbelWeight (fun _ => ([] : Dict ℕ)) netW).paths =
        fmtPath netW.weightRoot netW.modelName 42 ::
          (List.range 5).map (fun i => fmtPath netW.weightRoot netW.modelName
            (((archWeightsUncat netW).map argmaxIdx).getD i 0 + 1)) ∧
      (∀ k, (∀ g ∈ blockNames, ¬ (g.toList ++ ['.']).isPrefixOf k) →
        (loadGumbelWeight (fun _ => ([] : Dict ℕ)) netW).net.params k =
          (loadNonStrict netW
            ((fun _ => ([] : Dict ℕ)) (fmtPath netW.weightRoot netW.modelName 42))).params k) ∧
      (∀ g ∈ blockNames, ∀ k ∈ netW.keys, (g.toList ++ ['.']).isPrefixOf k →
        (∀ v, ((fun _ => ([] : Dict ℕ)) (fmtPath netW.weightRoot netW.modelName
              (((archWeightsUncat netW).map argmaxIdx).getD (blockNames.indexOf g) 0 + 1))).lookup k
            = some v →
          (loadGumbelWeight (fun _ => ([] : Dict ℕ)) netW).net.params k = v) ∧
        (((fun _ => ([] : Dict ℕ)) (fmtPath netW.weightRoot netW.modelName
              (((archWeightsUncat netW).map argmaxIdx).getD (blockNames.indexOf g) 0 + 1))).lookup k
            = none →
          ((fun _ => ([] : Dict ℕ)) (fmtPath netW.weightRoot netW.modelName
              (((archWeightsUncat netW).map argmaxIdx).getD (blockNames.indexOf g) 0 + 1))).lookup
              (k.drop (g.toList.length + 1)) = none →
          (loadGumbelWeight (fun _ => ([] : Dict ℕ)) netW).net.params k =
            (loadNonStrict netW
              ((fun _ => ([] : Dict ℕ)) (fmtPath netW.weightRoot netW.modelName 42))).params k))) := by
  have hyg : ∀ _p : String, ∀ kv ∈ ([] : Dict ℕ), ∀ g ∈ blockNames,
      g.toList.isPrefixOf kv.1 → (g.toList ++ ['.']).isPrefixOf kv.1 := by
    intro _p kv hkv
    exact absurd hkv (List.not_mem_nil kv)
  exact ⟨hyg, load_gumbel_weight_spec (fun _ => ([] : Dict ℕ)) netW hyg⟩

theorem linearMap_eq_range (W : List (List ℝ)) (b v : List ℝ) :
    linearMap W b v = (List.range (min W.length b.length)).map
      (fun i => dotProd (W.getD i []) v + b.getD i 0) := by
  induction W generalizing b with
  | nil => simp [linearMap]
  | cons w W' ih =>
    cases b with
    | nil => simp [linearMap]
    | cons b0 b' =>
      simp only [linearMap, List.zip_cons_cons, List.map_cons, List.length_cons]
      rw [show min (W'.length + 1) (b'.length + 1) = min W'.length b'.length + 1 by omega]
      rw [List.range_succ_eq_map, List.map_cons, List.map_map]
      refine congrArg (List.cons (dotProd w v + b0)) ?_
      have hIH := ih b'
      simp only [linearMap] at hIH
      rw [hIH]
      exact List.map_congr_left (fun i _ => rfl)

theorem flattenFeat_avgpool2_length (feat : FeatMap) :
    (flattenFeat (avgpool2 feat)).length = feat.length * 4 := by
  unfold flattenFeat
  rw [List.length_flatten]
  apply sum_map_length _ feat.length 4
  · simp [avgpool2]
  · intro r hr
    rw [List.mem_map] at hr
    obtain ⟨ch, hch, rfl⟩ := hr
    rw [avgpool2, List.mem_map] at hch
    obtain ⟨c0, hc0, rfl⟩ := hch
    show (List.flatten (avgpool2Chan c0)).length = 4
    rw [List.length_flatten]
    have h2 : ∀ row ∈ avgpool2Chan c0, row.length = 2 := by
      intro row hrow
      rw [avgpool2Chan, List.mem_map] at hrow
      obtain ⟨i, hi, rfl⟩ := hrow
      simp
    have hlen : (avgpool2Chan c0).length = 2 := by
      simp [avgpool2Chan]
    exact sum_map_length _ 2 2 hlen h2

/-- C7: after the four stages, `forward` adaptively average-pools to a fixed
2x2 spatial size, flattens (giving `4 * channels` features, which matches the
`fc` layer's `512 * expansion * 4` input features when the channel count is
the final stage's `512 * expansion`), applies the linear `fc` layer mapping to
`num_classes` logits, and returns exactly those logits divided by the
configured `temp` scalar — each output entry is
`(dot(W_i, features) + b_i) / temp`, with no transformation after the
division. -/
theorem forward_head_spec (W : List (List ℝ)) (b : List ℝ) (temp : ℝ)
    (feat : FeatMap) (nc e l1 l2 l3 l4 : ℕ)
    (hW : W.length = nc) (hb : b.length = nc) (hfeat : feat.length = 512 * e) :
    ((avgpool2 feat).length = feat.length ∧
      (∀ ch ∈ avgpool2 feat, ch.length = 2 ∧ ∀ row ∈ ch, row.length = 2)) ∧
    (flattenFeat (avgpool2 feat)).length = fcInFeatures e ∧
    forwardHead W b temp feat = (List.range nc).map
      (fun i => (dotProd (W.getD i []) (flattenFeat (avgpool2 feat)) + b.getD i 0) / temp) ∧
    (forwardHead W b temp feat).length = nc ∧
    (∀ bl ∈ (resnetStages e l1 l2 l3 l4).getLastD [],
      BlockDescr.outC e bl * 4 = fcInFeatures e) := by
  refine ⟨⟨by simp [avgpool2], ?_⟩, ?_, ?_, ?_, ?_⟩
  · intro ch hch
    rw [avgpool2, List.mem_map] at hch
    obtain ⟨c0, hc0, rfl⟩ := hch
    constructor
    · simp [avgpool2Chan]
    · intro row hrow
      rw [avgpool2Chan, List.mem_map] at hrow
      obtain ⟨i, hi, rfl⟩ := hrow
      simp
  · rw [flattenFeat_avgpool2_length, hfeat, fcInFeatures]
  · rw [forwardHead, linearMap_eq_range, hW, hb, min_self, List.map_map]
    exact List.map_congr_left (fun i _ => rfl)
  · rw [forwardHead, List.length_map, linearMap, List.length_map, List.length_zip,
      hW, hb, min_self]
  · intro bl hbl
    have hlast : (resnetStages e l1 l2 l3 l4).getLastD [] =
        (⟨256 * e, 512, 2, decide ((2 : ℕ) ≠ 1 ∨ 256 * e ≠ 512 * e)⟩ : BlockDescr) ::
          List.replicate (l4 - 1) ⟨512 * e, 512, 1, false⟩ := rfl
    rw [hlast] at hbl
    rcases List.mem_cons.mp hbl with h | hbl2
    · subst h
      rfl
    · have h2 := List.eq_of_mem_replicate hbl2
      subst h2
      rfl

theorem forward_head_spec_witness :
    ((List.replicate 2 ([] : List ℝ)).length = 2 ∧
      (List.replicate 2 (0 : ℝ)).length = 2 ∧
      (List.replicate 512 ([] : List (List ℝ)) : FeatMap).length = 512 * 1) ∧
    (((avgpool2 (List.replicate 512 [])).length =
        (List.replicate 512 ([] : List (List ℝ)) : FeatMap).length ∧
      (∀ ch ∈ avgpool2 (List.replicate 512 []), ch.length = 2 ∧
        ∀ row ∈ ch, row.length = 2)) ∧
    (flattenFeat (avgpool2 (List.replicate 512 []))).length = fcInFeatures 1 ∧
    forwardHead (List.replicate 2 []) (List.replicate 2 0) 1
        (List.replicate 512 []) = (List.range 2).map
      (fun i => (dotProd ((List.replicate 2 ([] : List ℝ)).getD i [])
          (flattenFeat (avgpool2 (List.replicate 512 []))) +
        (List.replicate 2 (0 : ℝ)).getD i 0) / 1) ∧
    (forwardHead (List.replicate 2 []) (List.replicate 2 0) 1
        (List.replicate 512 [])).length = 2 ∧
    (∀ bl ∈ (resnetStages 1 2 2 2 2).getLastD [],
      BlockDescr.outC 1 bl * 4 = fcInFeatures 1)) :=
  ⟨⟨by rw [List.length_replicate], by rw [List.length_replicate],
      by rw [List.length_replicate]⟩,
    forward_head_spec (List.replicate 2 []) (List.replicate 2 0) 1
      (List.replicate 512 []) 2 1 2 2 2 2 (by rw [List.length_replicate])
      (by rw [List.length_replicate]) (by rw [List.length_replicate])⟩

/-- C8: `forward` never reads the Architecture Selection Tensor or the Gumbel
noise tensor: on any input, two instances that differ only in `alphas` and
`gumbel` (all registered parameters and `temp` equal) produce identical
outputs. -/
theorem forward_independent_of_arch_tensors {V : Type}
    (body : (Key → V) → FeatMap → FeatMap)
    (fcW : (Key → V) → List (List ℝ)) (fcB : (Key → V) → List ℝ)
    (m : Net V) (a' g' : List (List ℝ)) (x : FeatMap) :
    netForward body fcW fcB { m with alphas := a', gumbel := g' } x =
      netForward body fcW fcB m x := rfl

end PCS
